import Mathlib

/-!
Verification development for the scopething repository (scope.py, streams.py).

The Python source is shallowly embedded: exact rational arithmetic (ℚ) models
Python's real-valued computations, `pytrunc` models `int(...)` (truncation
toward zero) and `roundHalfEven` models Python 3's banker's rounding
`round(...)`.  Fallible code paths (raise / assert) are modelled with
`Except`, errors as a small enum.  Stateful transport code (streams.py) is
modelled as an explicit state machine.
-/

instance {ε α : Type} [DecidableEq ε] [DecidableEq α] : DecidableEq (Except ε α) := fun x y =>
  match x, y with
  | .error e1, .error e2 =>
      if h : e1 = e2 then isTrue (congrArg Except.error h)
      else isFalse (fun hc => h (Except.error.inj hc))
  | .ok a1, .ok a2 =>
      if h : a1 = a2 then isTrue (congrArg Except.ok h)
      else isFalse (fun hc => h (Except.ok.inj hc))
  | .error _, .ok _ => isFalse (fun hc => Except.noConfusion hc)
  | .ok _, .error _ => isFalse (fun hc => Except.noConfusion hc)

/-- Python `int(x)` applied to a real value: truncation toward zero. -/
def pytrunc (x : ℚ) : ℤ := if 0 ≤ x then ⌊x⌋ else -⌊-x⌋

/-- Python 3 `round(x)` (and `int(round(x, 0))`): round half to even. -/
def roundHalfEven (x : ℚ) : ℤ :=
  if x - ⌊x⌋ < 1/2 then ⌊x⌋
  else if 1/2 < x - ⌊x⌋ then ⌊x⌋ + 1
  else if ⌊x⌋ % 2 = 0 then ⌊x⌋ else ⌊x⌋ + 1

theorem pytrunc_eq_floor {x : ℚ} (h : 0 ≤ x) : pytrunc x = ⌊x⌋ := if_pos h

theorem roundHalfEven_le (x : ℚ) : (roundHalfEven x : ℚ) ≤ x + 1/2 := by
  unfold roundHalfEven
  have hf : (⌊x⌋ : ℚ) ≤ x := Int.floor_le x
  split_ifs with h1 h2 h3
  · linarith
  · push_cast
    linarith
  · linarith
  · push_cast
    linarith

/- ===================== Scope.capture: the capture planner ===================== -/

/-- The two capture channels of the device ('A' and 'B' in scope.py). -/
inductive Channel
  | A
  | B
deriving DecidableEq

/-- vm.DumpMode values used by capture. -/
inductive DumpMode
  | Native
  | Raw
deriving DecidableEq

/-- vm.TraceMode values used by capture. -/
inductive TraceMode
  | Macro
  | MacroChop
  | Analog
  | AnalogChop
  | AnalogFast
  | AnalogFastChop
  | AnalogShot
  | AnalogShotChop
deriving DecidableEq

/-- vm.BufferMode values used by capture. -/
inductive BufferMode
  | Macro
  | MacroChop
  | Single
  | Chop
deriving DecidableEq

/-- The errors Scope.capture can raise before doing device I/O:
`RuntimeError("Unsupported clock period: ...")`, the failure of
`assert total_samples <= buffer_width`, the failure of
`assert trigger_channel in channels`, and the `channels[0]` IndexError. -/
inductive CaptureError
  | unsupportedClockPeriod (ticks : ℤ)
  | assertionFailed
  | triggerChannelNotInChannels
  | emptyChannels
deriving DecidableEq

/-- Scope.capture_clock_period for the BS0005 profile: 25e-9 seconds. -/
def capture_clock_period : ℚ := 25 / 1000000000

/-- Line 64: whether both channel A and channel B are requested. -/
def dualChannel (channels : List Channel) : Bool :=
  decide (Channel.A ∈ channels ∧ Channel.B ∈ channels)

/-- Lines 64-67: `nsamples_multiplier` is 2 when both channels are requested, else 1. -/
def nsamplesMultiplier (channels : List Channel) : ℕ :=
  if dualChannel channels then 2 else 1

/-- Line 68: `ticks = int(period / nsamples / nsamples_multiplier / capture_clock_period)`. -/
def captureTicks (period : ℚ) (nsamples : ℕ) (mult : ℕ) : ℤ :=
  pytrunc (period / (nsamples : ℚ) / (mult : ℚ) / capture_clock_period)

/-- The per-regime hardware parameters chosen on lines 69-112 of scope.py.
`ticks` is the effective tick count (after the clamp to 5 in the shot regime). -/
structure CaptureRegime where
  ticks : ℤ
  sampleWidth : ℕ
  bufferWidth : ℤ
  dumpMode : DumpMode
  traceMode : TraceMode
  bufferMode : BufferMode
deriving DecidableEq

/-- Lines 69-112: select the timing regime from the computed tick count.
A tick count outside [2, 65536) raises `RuntimeError("Unsupported clock period")`. -/
def captureRegime (dual : Bool) (ticks : ℤ) : Except CaptureError CaptureRegime :=
  if 40 ≤ ticks ∧ ticks < 65536 then
    .ok ⟨ticks, 2, 6*1024, .Native,
         if dual then .MacroChop else .Macro,
         if dual then .MacroChop else .Macro⟩
  else if 15 ≤ ticks ∧ ticks < 40 then
    .ok ⟨ticks, 1, 12*1024, .Raw,
         if dual then .AnalogChop else .Analog,
         if dual then .Chop else .Single⟩
  else if 8 ≤ ticks ∧ ticks < 15 then
    .ok ⟨ticks, 1, 12*1024, .Raw,
         if dual then .AnalogFastChop else .AnalogFast,
         if dual then .Chop else .Single⟩
  else if 2 ≤ ticks ∧ ticks < 8 then
    .ok ⟨if 5 < ticks then 5 else ticks, 1, 12*1024, .Raw,
         if dual then .AnalogShotChop else .AnalogShot,
         if dual then .Chop else .Single⟩
  else .error (.unsupportedClockPeriod ticks)

/-- The state of the capture planner after lines 64-115: the selected regime,
the recomputed sample count and the total sample count. -/
structure CapturePlan where
  multiplier : ℕ
  regime : CaptureRegime
  nsamples : ℤ
  totalSamples : ℤ
deriving DecidableEq

/-- Lines 64-115 of scope.py: multiplier and tick computation, regime selection,
then `nsamples = int(round(period / ticks / nsamples_multiplier / capture_clock_period))`,
`total_samples = nsamples * nsamples_multiplier` and
`assert total_samples <= buffer_width` (a failing assert is an error). -/
def capturePlan (channels : List Channel) (period : ℚ) (nsamples : ℕ) :
    Except CaptureError CapturePlan :=
  match captureRegime (dualChannel channels)
      (captureTicks period nsamples (nsamplesMultiplier channels)) with
  | .error e => .error e
  | .ok r =>
      if roundHalfEven (period / (r.ticks : ℚ) / (nsamplesMultiplier channels : ℚ) /
            capture_clock_period) * (nsamplesMultiplier channels : ℤ) ≤ r.bufferWidth then
        .ok ⟨nsamplesMultiplier channels, r,
             roundHalfEven (period / (r.ticks : ℚ) / (nsamplesMultiplier channels : ℚ) /
               capture_clock_period),
             roundHalfEven (period / (r.ticks : ℚ) / (nsamplesMultiplier channels : ℚ) /
               capture_clock_period) * (nsamplesMultiplier channels : ℤ)⟩
      else .error .assertionFailed

/- ===================== Scope.capture: trigger encoding ===================== -/

/-- The four trigger types accepted by capture (already lower-cased). -/
inductive TriggerType
  | rising
  | falling
  | above
  | below
deriving DecidableEq

/-- The trigger configuration computed on lines 122-135: the trigger channel,
whether SpockOption.TriggerInvert is set, and the TriggerIntro sample count. -/
structure TriggerSetup where
  channel : Channel
  invert : Bool
  introCount : ℕ
deriving DecidableEq

/-- Lines 133-135: the polarity-invert flag and the intro sample count. -/
def mkTriggerSetup (tc : Channel) (tt : TriggerType) : TriggerSetup :=
  ⟨tc, decide (tt = .falling ∨ tt = .below),
    if tt = .above ∨ tt = .below then 0 else 4⟩

/-- Lines 122-135: a missing trigger channel defaults to `channels[0]`;
a given one must be a member of the requested channels (`assert`). -/
def triggerPlan (channels : List Channel) (trigger_channel : Option Channel)
    (trigger_type : TriggerType) : Except CaptureError TriggerSetup :=
  match trigger_channel with
  | none =>
      match channels with
      | [] => .error .emptyChannels
      | c :: _ => .ok (mkTriggerSetup c trigger_type)
  | some tc =>
      if tc ∈ channels then .ok (mkTriggerSetup tc trigger_type)
      else .error .triggerChannelNotInChannels

/- ===================== Scope.capture: sample decoding ===================== -/

/-- struct.unpack('>h'): a big-endian signed 16-bit value from two bytes. -/
def toInt16 (hi lo : ℕ) : ℤ :=
  if hi * 256 + lo < 32768 then (hi * 256 + lo : ℤ) else (hi * 256 + lo : ℤ) - 65536

/-- struct.unpack of a byte string as consecutive big-endian signed 16-bit values. -/
def unpackBE : List ℕ → List ℤ
  | hi :: lo :: rest => toInt16 hi lo :: unpackBE rest
  | _ => []

/-- Lines 176-186 of scope.py: decode one dumped trace.  2-byte samples are
big-endian signed, normalized as value/65536 + 0.5; 1-byte samples are
unsigned, normalized as value/256; unless raw, the normalized value is
affinely mapped to [low, high]. -/
def decodeTrace (sampleWidth : ℕ) (raw : Bool) (low high : ℚ) (data : List ℕ) : List ℚ :=
  if sampleWidth = 2 then
    if raw then
      (unpackBE data).map (fun value : ℤ => (value : ℚ) / 65536 + 1/2)
    else
      (unpackBE data).map (fun value : ℤ => ((value : ℚ) / 65536 + 1/2) * (high - low) + low)
  else
    if raw then
      data.map (fun value : ℕ => (value : ℚ) / 256)
    else
      data.map (fun value : ℕ => (value : ℚ) / 256 * (high - low) + low)

/- ===================== Scope.capture: trace dictionary ===================== -/

/-- Channel sort order used by `sorted(channels)`. -/
def chanLE : Channel → Channel → Prop := fun a b => a = Channel.A ∨ b = Channel.B

instance : DecidableRel chanLE := fun a b => by
  unfold chanLE
  infer_instance

/-- Python `sorted(channels)`. -/
def sortChannels (channels : List Channel) : List Channel :=
  channels.insertionSort chanLE

/-- Python dict assignment `traces[channel] = trace` on an association list:
replace the value if the key is present, else append the binding. -/
def dictInsert (k : Channel) (v : List ℚ) : List (Channel × List ℚ) → List (Channel × List ℚ)
  | [] => [(k, v)]
  | (k1, v1) :: rest =>
      if k1 = k then (k1, v) :: rest else (k1, v1) :: dictInsert k v rest

/-- The device byte stream: `readexactly(len)` starting at stream offset `off`. -/
def readChunk (dev : ℕ → ℕ) (off len : ℕ) : List ℕ :=
  (List.range len).map (fun j => dev (off + j))

/-- Lines 169-187: for each channel, in sorted order, read exactly
`nsamples * sample_width` bytes from the stream and store the decoded trace
in the result dictionary. -/
def captureTracesAux (ns sw : ℕ) (raw : Bool) (low high : ℚ) (dev : ℕ → ℕ) :
    List Channel → ℕ → List (Channel × List ℚ) → List (Channel × List ℚ)
  | [], _, acc => acc
  | c :: rest, off, acc =>
      captureTracesAux ns sw raw low high dev rest (off + ns * sw)
        (dictInsert c (decodeTrace sw raw low high (readChunk dev off (ns * sw))) acc)

/-- Lines 168-188: the returned `traces` dictionary. -/
def captureTraces (channels : List Channel) (ns sw : ℕ) (raw : Bool) (low high : ℚ)
    (dev : ℕ → ℕ) : List (Channel × List ℚ) :=
  captureTracesAux ns sw raw low high dev (sortChannels channels) 0 []

/- ===================== Scope.start_generator: waveform planner ===================== -/

/-- Scope.awg_clock_period for the BS0005 profile: 25e-9 seconds. -/
def awg_clock_period : ℚ := 25 / 1000000000

/-- Scope.awg_sample_buffer_size for the BS0005 profile. -/
def awg_sample_buffer_size : ℕ := 1024

/-- Scope.awg_minimum_clock for the BS0005 profile. -/
def awg_minimum_clock : ℕ := 33

/-- The error start_generator raises when no candidate plan qualifies:
`ValueError("No solution to required frequency/min_samples/max_error")`. -/
inductive GenError
  | noSolution
deriving DecidableEq

/-- One entry of `possible_params` (line 205): the sort key `(error == 0, width)`
followed by the payload `(size, nwaves, clock, actualf)`.  Python compares the
nested tuples lexicographically across all six components. -/
structure GenCandidate where
  isExact : Bool
  width : ℚ
  size : ℤ
  nwaves : ℤ
  clock : ℕ
  actualf : ℚ
deriving DecidableEq

/-- Line 197: `width = 1 / frequency / (clock * awg_clock_period)`. -/
def widthAt (f : ℚ) (clock : ℕ) : ℚ :=
  1 / f / ((clock : ℚ) * awg_clock_period)

/-- Line 199: `nwaves = int(awg_sample_buffer_size / width)`. -/
def nwavesAt (f : ℚ) (clock : ℕ) : ℤ :=
  pytrunc ((awg_sample_buffer_size : ℚ) / widthAt f clock)

/-- Line 200: `size = int(round(nwaves * width))`. -/
def sizeAt (f : ℚ) (clock : ℕ) : ℤ :=
  roundHalfEven ((nwavesAt f clock : ℚ) * widthAt f clock)

/-- Line 201: the reassigned `width = size / nwaves`. -/
def width2At (f : ℚ) (clock : ℕ) : ℚ :=
  (sizeAt f clock : ℚ) / (nwavesAt f clock : ℚ)

/-- Line 202: `actualf = 1 / (width * clock * awg_clock_period)` with the
reassigned width. -/
def actualfAt (f : ℚ) (clock : ℕ) : ℚ :=
  1 / (width2At f clock * (clock : ℚ) * awg_clock_period)

/-- Line 203: `error = abs(frequency - actualf) / frequency`. -/
def errorAt (f : ℚ) (clock : ℕ) : ℚ :=
  |f - actualfAt f clock| / f

/-- Lines 197-205: the loop body for one clock divisor; `none` when the width
exceeds the sample buffer or the fractional error is not below `max_error`. -/
def candAt (f maxError : ℚ) (clock : ℕ) : Option GenCandidate :=
  if widthAt f clock ≤ (awg_sample_buffer_size : ℚ) then
    if errorAt f clock < maxError then
      some ⟨decide (errorAt f clock = 0), width2At f clock, sizeAt f clock,
            nwavesAt f clock, clock, actualfAt f clock⟩
    else none
  else none

/-- Line 195: `max_clock = int(round(1 / frequency / min_samples / awg_clock_period, 0))`. -/
def maxClock (f : ℚ) (minSamples : ℕ) : ℤ :=
  roundHalfEven (1 / f / (minSamples : ℚ) / awg_clock_period)

/-- Lines 194-206: `possible_params` collected over `range(awg_minimum_clock, max_clock+1)`
(the loop body's extra `clock += 1` has no effect on Python's range iteration). -/
def genCandidates (f : ℚ) (minSamples : ℕ) (maxError : ℚ) : List GenCandidate :=
  (List.range' awg_minimum_clock (maxClock f minSamples + 1 - awg_minimum_clock).toNat).filterMap
    (candAt f maxError)

/-- Python's nested-tuple sort key `((error == 0, width), (size, nwaves, clock, actualf))`
flattened into a lexicographic order. -/
def candKey (c : GenCandidate) : Bool ×ₗ (ℚ ×ₗ (ℤ ×ₗ (ℤ ×ₗ (ℕ ×ₗ ℚ)))) :=
  toLex (c.isExact, toLex (c.width, toLex (c.size, toLex (c.nwaves, toLex (c.clock, c.actualf)))))

/-- The maximum of a candidate list under `candKey`: `sorted(possible_params)[-1]`. -/
def pickBest : GenCandidate → List GenCandidate → GenCandidate
  | best, [] => best
  | best, c :: rest => pickBest (if candKey best ≤ candKey c then c else best) rest

/-- Lines 194-209: the plan start_generator selects, or the "no solution" error. -/
def startGeneratorPlan (f : ℚ) (minSamples : ℕ) (maxError : ℚ) :
    Except GenError GenCandidate :=
  match genCandidates f minSamples maxError with
  | [] => .error .noSolution
  | c :: rest => .ok (pickBest c rest)

/-- A target frequency is exactly representable by the integer clock divisor
`clock` inside the searched range: the divisor lies in
`range(awg_minimum_clock, max_clock+1)`, its continuous width fits the sample
buffer, and the achieved frequency equals the target. -/
def exactAt (f : ℚ) (minSamples : ℕ) (clock : ℕ) : Prop :=
  awg_minimum_clock ≤ clock ∧ (clock : ℤ) ≤ maxClock f minSamples ∧
    widthAt f clock ≤ (awg_sample_buffer_size : ℚ) ∧ actualfAt f clock = f

instance (f : ℚ) (minSamples clock : ℕ) : Decidable (exactAt f minSamples clock) := by
  unfold exactAt
  infer_instance

/- ===================== Scope.load_params / Scope.save_params ===================== -/

/-- The 3-coefficient tuples `analog_low_ks` / `analog_high_ks`. -/
abbrev Coeffs : Type := ℚ × ℚ × ℚ

/-- Scope.PARAMS_MAGIC. -/
def PARAMS_MAGIC : ℕ := 0xb0b2

/-- IEEE-754 binary32 decoding of a 32-bit word (sign, 8 exponent bits,
23 fraction bits) to an exact rational.  Exponent 255 (infinity/NaN) carries
no numeric meaning for the calibration record and decodes like a huge
finite value. -/
def decodeF32 (w : ℕ) : ℚ :=
  if w / 2 ^ 31 % 2 = 1 then
    -(if w / 2 ^ 23 % 256 = 0 then ((w % 2 ^ 23 : ℕ) : ℚ) * (2 : ℚ) ^ (-149 : ℤ)
      else ((2 : ℚ) ^ 23 + ((w % 2 ^ 23 : ℕ) : ℚ)) * (2 : ℚ) ^ ((w / 2 ^ 23 % 256 : ℕ) - 150 : ℤ))
  else
    (if w / 2 ^ 23 % 256 = 0 then ((w % 2 ^ 23 : ℕ) : ℚ) * (2 : ℚ) ^ (-149 : ℤ)
     else ((2 : ℚ) ^ 23 + ((w % 2 ^ 23 : ℕ) : ℚ)) * (2 : ℚ) ^ ((w / 2 ^ 23 % 256 : ℕ) - 150 : ℤ))

/-- Exponent and fraction packing for binary32: `m` is the significand rounded
to 23 fractional bits at exponent `e` (so a normal value has m in
[2^23, 2^24)); m = 2^24 means the rounding overflowed into the next binade;
m < 2^23 (only possible at the minimum exponent e = -126) is subnormal;
a biased exponent of 255 or more overflows to infinity. -/
def encodeF32Sig (m e : ℤ) : ℕ :=
  if 2 ^ 24 ≤ m then
    if 255 ≤ e + 128 then 255 * 2 ^ 23 else (e + 128).toNat * 2 ^ 23
  else if 2 ^ 23 ≤ m then
    if 255 ≤ e + 127 then 255 * 2 ^ 23 else (e + 127).toNat * 2 ^ 23 + (m - 2 ^ 23).toNat
  else m.toNat

/-- IEEE-754 binary32 encoding of a rational with round-to-nearest, ties to
even (the rounding struct.pack('f') performs): normal numbers get a 24-bit
significand, small magnitudes become subnormals, overflow becomes infinity. -/
def encodeF32 (q : ℚ) : ℕ :=
  if q = 0 then 0
  else
    (if q < 0 then 1 else 0) * 2 ^ 31 +
      encodeF32Sig (roundHalfEven (|q| * (2 : ℚ) ^ (23 - max (Int.log 2 |q|) (-126))))
        (max (Int.log 2 |q|) (-126))

/-- The single-precision rounding performed by a pack/unpack round trip. -/
def fl32 (q : ℚ) : ℚ := decodeF32 (encodeF32 q)

/-- The i-th float field of struct.pack('<H3f3f', magic, *(low_ks + high_ks)). -/
def fieldCoeff (lks hks : Coeffs) : ℕ → ℚ
  | 0 => lks.1
  | 1 => lks.2.1
  | 2 => lks.2.2
  | 3 => hks.1
  | 4 => hks.2.1
  | _ => hks.2.2

/-- Byte i of struct.pack('<H3f3f', PARAMS_MAGIC, *(low_ks + high_ks)):
two little-endian magic bytes followed by six 4-byte little-endian
single-precision floats. -/
def packByte (lks hks : Coeffs) (i : ℕ) : ℕ :=
  if i = 0 then PARAMS_MAGIC % 256
  else if i = 1 then PARAMS_MAGIC / 256 % 256
  else encodeF32 (fieldCoeff lks hks ((i - 2) / 4)) / 256 ^ ((i - 2) % 4) % 256

/-- Scope.save_params: write the 26 record bytes to EEPROM addresses 100..125
(`write_eeprom(i+100, byte)`). -/
def saveParams (lks hks : Coeffs) (ee : ℕ → ℕ) : ℕ → ℕ :=
  fun a => if 100 ≤ a ∧ a < 126 then packByte lks hks (a - 100) else ee a

/-- struct.unpack('<f') of four little-endian bytes at offsets i..i+3. -/
def readF32 (b : ℕ → ℕ) (i : ℕ) : ℚ :=
  decodeF32 (b i + 256 * b (i + 1) + 65536 * b (i + 2) + 16777216 * b (i + 3))

/-- Scope.load_params: read 26 bytes from EEPROM addresses 100..125, unpack
them as '<H3f3f', and replace `(analog_low_ks, analog_high_ks)` only when the
unpacked magic equals PARAMS_MAGIC; otherwise keep the current coefficients. -/
def loadParams (ee : ℕ → ℕ) (cur : Coeffs × Coeffs) : Coeffs × Coeffs :=
  if ee (100 + 0) + 256 * ee (100 + 1) = PARAMS_MAGIC then
    ((readF32 (fun i => ee (100 + i)) 2, readF32 (fun i => ee (100 + i)) 6,
      readF32 (fun i => ee (100 + i)) 10),
     (readF32 (fun i => ee (100 + i)) 14, readF32 (fun i => ee (100 + i)) 18,
      readF32 (fun i => ee (100 + i)) 22))
  else cur

/- ===================== streams.SerialStream ===================== -/

/-- The observable state of a SerialStream: the pending output buffer, whether
the `_output_buffer_empty` future exists (the write-readiness callback is
registered exactly while it does), the bytes the device has accepted so far,
and the ghost list of all bytes ever passed to `write`. -/
structure StreamState where
  outputBuffer : List ℕ
  futureLive : Bool
  accepted : List ℕ
  written : List ℕ
deriving DecidableEq

/-- A fresh stream: empty output buffer, no pending future. -/
def initialStream : StreamState := ⟨[], false, [], []⟩

/-- SerialStream.write (lines 49-65 of streams.py): with an empty buffer, try
an immediate non-blocking device write that accepts `accept` bytes (0 models
SerialTimeoutException) and buffer the remainder; with a non-empty buffer,
append everything.  If the buffer is now non-empty and no future exists,
create the future (and register the write-readiness callback); `writeTry`
is the lines 50-62 attempt, `writeOp` adds the arming step. -/
def writeTry (accept : ℕ) (data : List ℕ) (s : StreamState) : StreamState :=
  if s.outputBuffer = [] then
    { s with accepted := s.accepted ++ data.take accept,
             outputBuffer := data.drop accept,
             written := s.written ++ data }
  else
    { s with outputBuffer := s.outputBuffer ++ data,
             written := s.written ++ data }

/-- Lines 63-65: after the write attempt, if the buffer is non-empty and no
future exists yet, create the completion future and register the callback. -/
def writeOp (accept : ℕ) (data : List ℕ) (s : StreamState) : StreamState :=
  if (writeTry accept data s).outputBuffer ≠ [] ∧ (writeTry accept data s).futureLive = false then
    { writeTry accept data s with futureLive := true }
  else writeTry accept data s

/-- SerialStream._feed_data (lines 71-86): one write-readiness callback; the
device accepts `accept` more buffered bytes; when the buffer empties, resolve
the future (unblocking drain) and deregister the callback.  The callback only
fires while the future exists. -/
def feedOp (accept : ℕ) (s : StreamState) : StreamState :=
  if s.futureLive = false then s
  else
    if s.outputBuffer.drop accept = [] then
      { s with accepted := s.accepted ++ s.outputBuffer.take accept,
               outputBuffer := [],
               futureLive := false }
    else
      { s with accepted := s.accepted ++ s.outputBuffer.take accept,
               outputBuffer := s.outputBuffer.drop accept }

/-- An event of the cooperative scheduler: a caller write (with the byte count
the device accepts immediately) or one readiness callback. -/
inductive StreamEvent
  | write (accept : ℕ) (data : List ℕ)
  | feed (accept : ℕ)

/-- One scheduler step. -/
def streamStep (s : StreamState) (e : StreamEvent) : StreamState :=
  match e with
  | .write accept data => writeOp accept data s
  | .feed accept => feedOp accept s

/-- Run a sequence of scheduler events. -/
def runEvents (evs : List StreamEvent) (s : StreamState) : StreamState :=
  evs.foldl streamStep s

/-- The SerialStream invariant: accepted bytes followed by the pending buffer
are exactly the bytes written, in order, and the completion future exists
exactly while the buffer is non-empty (`drain` suspends exactly on it). -/
def streamInv (s : StreamState) : Prop :=
  s.accepted ++ s.outputBuffer = s.written ∧ (s.futureLive = true ↔ s.outputBuffer ≠ [])

/- ===================== Helper lemmas: capture regimes ===================== -/

theorem captureRegime_native {dual : Bool} {t : ℤ} (h1 : 40 ≤ t) (h2 : t < 65536) :
    captureRegime dual t = .ok ⟨t, 2, 6144, .Native,
      if dual then .MacroChop else .Macro, if dual then .MacroChop else .Macro⟩ := by
  unfold captureRegime
  rw [if_pos ⟨h1, h2⟩]
  norm_num

theorem captureRegime_analog {dual : Bool} {t : ℤ} (h1 : 15 ≤ t) (h2 : t < 40) :
    captureRegime dual t = .ok ⟨t, 1, 12288, .Raw,
      if dual then .AnalogChop else .Analog, if dual then .Chop else .Single⟩ := by
  unfold captureRegime
  rw [if_neg (by omega), if_pos ⟨h1, h2⟩]
  norm_num

theorem captureRegime_fast {dual : Bool} {t : ℤ} (h1 : 8 ≤ t) (h2 : t < 15) :
    captureRegime dual t = .ok ⟨t, 1, 12288, .Raw,
      if dual then .AnalogFastChop else .AnalogFast, if dual then .Chop else .Single⟩ := by
  unfold captureRegime
  rw [if_neg (by omega), if_neg (by omega), if_pos ⟨h1, h2⟩]
  norm_num

theorem captureRegime_shot {dual : Bool} {t : ℤ} (h1 : 2 ≤ t) (h2 : t < 8) :
    captureRegime dual t = .ok ⟨if 5 < t then 5 else t, 1, 12288, .Raw,
      if dual then .AnalogShotChop else .AnalogShot, if dual then .Chop else .Single⟩ := by
  unfold captureRegime
  rw [if_neg (by omega), if_neg (by omega), if_neg (by omega), if_pos ⟨h1, h2⟩]
  norm_num

theorem captureRegime_err {dual : Bool} {t : ℤ} (h : t < 2 ∨ 65536 ≤ t) :
    captureRegime dual t = .error (.unsupportedClockPeriod t) := by
  unfold captureRegime
  rw [if_neg (by omega), if_neg (by omega), if_neg (by omega), if_neg (by omega)]

theorem capturePlan_eq_of {channels : List Channel} {period : ℚ} {n : ℕ} {r : CaptureRegime}
    (hreg : captureRegime (dualChannel channels)
      (captureTicks period n (nsamplesMultiplier channels)) = .ok r) :
    capturePlan channels period n =
      if roundHalfEven (period / (r.ticks : ℚ) / (nsamplesMultiplier channels : ℚ) /
            capture_clock_period) * (nsamplesMultiplier channels : ℤ) ≤ r.bufferWidth then
        .ok ⟨nsamplesMultiplier channels, r,
             roundHalfEven (period / (r.ticks : ℚ) / (nsamplesMultiplier channels : ℚ) /
               capture_clock_period),
             roundHalfEven (period / (r.ticks : ℚ) / (nsamplesMultiplier channels : ℚ) /
               capture_clock_period) * (nsamplesMultiplier channels : ℤ)⟩
      else .error .assertionFailed := by
  unfold capturePlan
  rw [hreg]

theorem capturePlan_err {channels : List Channel} {period : ℚ} {n : ℕ}
    (h : captureTicks period n (nsamplesMultiplier channels) < 2 ∨
      65536 ≤ captureTicks period n (nsamplesMultiplier channels)) :
    capturePlan channels period n =
      .error (.unsupportedClockPeriod (captureTicks period n (nsamplesMultiplier channels))) := by
  unfold capturePlan
  rw [captureRegime_err h]

theorem capturePlan_ok_shape {channels : List Channel} {period : ℚ} {n : ℕ} {p : CapturePlan}
    (h : capturePlan channels period n = .ok p) :
    captureRegime (dualChannel channels)
      (captureTicks period n (nsamplesMultiplier channels)) = .ok p.regime ∧
    p.multiplier = nsamplesMultiplier channels ∧
    p.nsamples = roundHalfEven (period / (p.regime.ticks : ℚ) / (p.multiplier : ℚ) /
      capture_clock_period) ∧
    p.totalSamples = p.nsamples * (p.multiplier : ℤ) ∧
    p.totalSamples ≤ p.regime.bufferWidth := by
  unfold capturePlan at h
  split at h
  · exact absurd h (by simp)
  · next r hreg =>
    split at h
    · next htot =>
      cases h
      exact ⟨hreg, rfl, rfl, rfl, htot⟩
    · exact absurd h (by simp)

theorem captureRegime_width {dual : Bool} {t : ℤ} {r : CaptureRegime}
    (h : captureRegime dual t = .ok r) : r.sampleWidth = 1 ∨ r.sampleWidth = 2 := by
  unfold captureRegime at h
  split_ifs at h <;> cases h <;> simp

/- ===================== C2 ===================== -/

/-- C2: for every capture request, the sample multiplier is 2 exactly when both
channels A and B are requested (else 1); the tick count is the floor of
period / nsamples / multiplier / capture_clock_period; ticks in [40, 65536)
selects the 2-byte, 6144-sample, native-dump regime; ticks in [2, 40) selects
a 1-byte, 12288-sample regime; and ticks outside [2, 65536) makes capture
fail with the unsupported-clock-period error before any device I/O (the
planner is the pure pre-I/O stage of capture). -/
theorem c2_regime_table :
    (∀ channels : List Channel,
        (nsamplesMultiplier channels = 2 ↔ Channel.A ∈ channels ∧ Channel.B ∈ channels) ∧
        (nsamplesMultiplier channels = 1 ∨ nsamplesMultiplier channels = 2)) ∧
    (∀ (period : ℚ) (n m : ℕ), 0 < period → 1 ≤ n → 1 ≤ m →
        captureTicks period n m = ⌊period / (n : ℚ) / (m : ℚ) / capture_clock_period⌋) ∧
    (∀ (dual : Bool) (t : ℤ), 40 ≤ t → t < 65536 → ∃ tm bm,
        captureRegime dual t = .ok ⟨t, 2, 6144, .Native, tm, bm⟩) ∧
    (∀ (dual : Bool) (t : ℤ), 2 ≤ t → t < 40 → ∃ te dm tm bm,
        captureRegime dual t = .ok ⟨te, 1, 12288, dm, tm, bm⟩) ∧
    (∀ (dual : Bool) (t : ℤ), t < 2 ∨ 65536 ≤ t →
        captureRegime dual t = .error (.unsupportedClockPeriod t)) ∧
    (∀ (channels : List Channel) (period : ℚ) (n : ℕ),
        captureTicks period n (nsamplesMultiplier channels) < 2 ∨
          65536 ≤ captureTicks period n (nsamplesMultiplier channels) →
        capturePlan channels period n =
          .error (.unsupportedClockPeriod
            (captureTicks period n (nsamplesMultiplier channels)))) := by
  refine ⟨?_, ?_, ?_, ?_, ?_, ?_⟩
  · intro channels
    by_cases h : Channel.A ∈ channels ∧ Channel.B ∈ channels <;>
      simp [nsamplesMultiplier, dualChannel, h]
  · intro period n m hp hn hm
    unfold captureTicks
    apply pytrunc_eq_floor
    have hnQ : (0:ℚ) < (n : ℚ) := by exact_mod_cast hn
    have hmQ : (0:ℚ) < (m : ℚ) := by exact_mod_cast hm
    have hc : (0:ℚ) < capture_clock_period := by norm_num [capture_clock_period]
    exact le_of_lt (div_pos (div_pos (div_pos hp hnQ) hmQ) hc)
  · intro dual t h1 h2
    exact ⟨_, _, captureRegime_native h1 h2⟩
  · intro dual t h1 h2
    by_cases h15 : 15 ≤ t
    · exact ⟨t, _, _, _, captureRegime_analog h15 h2⟩
    · by_cases h8 : 8 ≤ t
      · exact ⟨t, _, _, _, captureRegime_fast h8 (by omega)⟩
      · exact ⟨_, _, _, _, captureRegime_shot h1 (by omega)⟩
  · intro dual t h
    exact captureRegime_err h
  · intro channels period n h
    exact capturePlan_err h

/-- C2 witness: concrete instances of every hypothesis-bearing conjunct. -/
theorem c2_regime_table_witness :
    captureTicks (1/1000) 1000 1 = ⌊(1/1000 : ℚ) / ((1000:ℕ) : ℚ) / ((1:ℕ) : ℚ) /
      capture_clock_period⌋ ∧
    (∃ tm bm, captureRegime false 40 = .ok ⟨40, 2, 6144, .Native, tm, bm⟩) ∧
    (∃ te dm tm bm, captureRegime false 15 = .ok ⟨te, 1, 12288, dm, tm, bm⟩) ∧
    captureRegime false 1 = .error (.unsupportedClockPeriod 1) ∧
    capturePlan [Channel.A] 1 40000000 =
      .error (.unsupportedClockPeriod (captureTicks 1 40000000 (nsamplesMultiplier [Channel.A]))) := by
  refine ⟨c2_regime_table.2.1 (1/1000) 1000 1 (by norm_num) (by norm_num) (by norm_num),
    c2_regime_table.2.2.1 false 40 (by norm_num) (by norm_num),
    c2_regime_table.2.2.2.1 false 15 (by norm_num) (by norm_num),
    c2_regime_table.2.2.2.2.1 false 1 (by norm_num),
    c2_regime_table.2.2.2.2.2 [Channel.A] 1 40000000 ?_⟩
  · left
    have hm : nsamplesMultiplier [Channel.A] = 1 := rfl
    rw [hm]
    unfold captureTicks pytrunc
    norm_num [capture_clock_period]

/- ===================== C9 ===================== -/

/-- C9: for a computed tick count in [2, 8) the planner succeeds and the
effective tick count it keeps is at most 5 (tick counts 2..5 pass through
unchanged), and whenever capture succeeds, the recomputed sample count is
derived from exactly this effective (clamped) tick count — the same value
written to the ClockTicks register. -/
theorem c9_shot_clamp :
    (∀ (dual : Bool) (t : ℤ), 2 ≤ t → t < 8 →
      ∃ r, captureRegime dual t = .ok r ∧ r.ticks ≤ 5 ∧ (t ≤ 5 → r.ticks = t)) ∧
    (∀ (channels : List Channel) (period : ℚ) (n : ℕ) (p : CapturePlan),
      capturePlan channels period n = .ok p →
      p.nsamples = roundHalfEven (period / (p.regime.ticks : ℚ) / (p.multiplier : ℚ) /
        capture_clock_period)) := by
  constructor
  · intro dual t h1 h2
    refine ⟨_, captureRegime_shot h1 h2, ?_, ?_⟩
    · show (if 5 < t then 5 else t) ≤ 5
      split_ifs <;> omega
    · intro h5
      show (if 5 < t then 5 else t) = t
      split_ifs <;> omega
  · intro channels period n p h
    exact (capturePlan_ok_shape h).2.2.1

/-- C9 witness: the unclamped value 7 is clamped to 5, the value 3 passes
through, and a concrete successful capture recomputes from the kept ticks. -/
theorem c9_shot_clamp_witness :
    (∃ r, captureRegime false 7 = .ok r ∧ r.ticks ≤ 5 ∧ ((7:ℤ) ≤ 5 → r.ticks = 7)) ∧
    (∃ r, captureRegime false 3 = .ok r ∧ r.ticks ≤ 5 ∧ ((3:ℤ) ≤ 5 → r.ticks = 3)) := by
  exact ⟨c9_shot_clamp.1 false 7 (by norm_num) (by norm_num),
         c9_shot_clamp.1 false 3 (by norm_num) (by norm_num)⟩

/- ===================== C8 ===================== -/

/-- C8: in the trigger encoding, a missing trigger channel defaults to the
first requested channel; a trigger channel outside the requested set is an
error; the polarity-inversion flag (SpockOption.TriggerInvert) is set exactly
for the falling and below trigger types; and the trigger intro count is 4 for
the edge-style types (rising, falling) and 0 for the level-style types
(above, below). -/
theorem c8_trigger_encoding :
    (∀ (c : Channel) (rest : List Channel) (tt : TriggerType),
        ∃ r, triggerPlan (c :: rest) none tt = .ok r ∧ r.channel = c) ∧
    (∀ (channels : List Channel) (tc : Channel) (tt : TriggerType),
        tc ∉ channels →
        triggerPlan channels (some tc) tt = .error .triggerChannelNotInChannels) ∧
    (∀ (channels : List Channel) (tc : Option Channel) (tt : TriggerType) (r : TriggerSetup),
        triggerPlan channels tc tt = .ok r →
        (r.invert = true ↔ (tt = .falling ∨ tt = .below))) ∧
    (∀ (channels : List Channel) (tc : Option Channel) (tt : TriggerType) (r : TriggerSetup),
        triggerPlan channels tc tt = .ok r →
        ((tt = .rising ∨ tt = .falling → r.introCount = 4) ∧
         (tt = .above ∨ tt = .below → r.introCount = 0))) := by
  have hok : ∀ (channels : List Channel) (tc : Option Channel) (tt : TriggerType)
      (r : TriggerSetup), triggerPlan channels tc tt = .ok r →
      r.invert = decide (tt = .falling ∨ tt = .below) ∧
      r.introCount = (if tt = .above ∨ tt = .below then 0 else 4) := by
    intro channels tc tt r h
    unfold triggerPlan at h
    rcases tc with _ | tc0
    · rcases channels with _ | ⟨c0, rest⟩
      · exact absurd h (by simp)
      · rw [show (match (c0 :: rest : List Channel) with
            | [] => (Except.error CaptureError.emptyChannels : Except CaptureError TriggerSetup)
            | c :: _ => Except.ok (mkTriggerSetup c tt)) = Except.ok (mkTriggerSetup c0 tt)
            from rfl] at h
        cases h
        exact ⟨rfl, rfl⟩
    · rw [show (match (some tc0 : Option Channel) with
          | none =>
            match channels with
            | [] => (Except.error CaptureError.emptyChannels : Except CaptureError TriggerSetup)
            | c :: _ => Except.ok (mkTriggerSetup c tt)
          | some tc => if tc ∈ channels then Except.ok (mkTriggerSetup tc tt)
              else Except.error CaptureError.triggerChannelNotInChannels) =
          (if tc0 ∈ channels then Except.ok (mkTriggerSetup tc0 tt)
              else Except.error CaptureError.triggerChannelNotInChannels) from rfl] at h
      split_ifs at h
      · cases h
        exact ⟨rfl, rfl⟩
  refine ⟨?_, ?_, ?_, ?_⟩
  · intro c rest tt
    exact ⟨mkTriggerSetup c tt, rfl, rfl⟩
  · intro channels tc tt h
    show (if tc ∈ channels then Except.ok (mkTriggerSetup tc tt)
        else Except.error CaptureError.triggerChannelNotInChannels) =
      Except.error CaptureError.triggerChannelNotInChannels
    rw [if_neg h]
  · intro channels tc tt r h
    rw [(hok channels tc tt r h).1]
    simp
  · intro channels tc tt r h
    rw [(hok channels tc tt r h).2]
    constructor
    · rintro (rfl | rfl) <;> simp
    · rintro (rfl | rfl) <;> simp

/-- C8 witness: concrete instances of every hypothesis-bearing conjunct. -/
theorem c8_trigger_encoding_witness :
    triggerPlan [Channel.A] (some Channel.B) TriggerType.rising =
      .error .triggerChannelNotInChannels ∧
    ((mkTriggerSetup Channel.A TriggerType.falling).invert = true ↔
      (TriggerType.falling = .falling ∨ TriggerType.falling = .below)) ∧
    (TriggerType.rising = .rising ∨ TriggerType.rising = .falling →
      (mkTriggerSetup Channel.A TriggerType.rising).introCount = 4) ∧
    (TriggerType.below = .above ∨ TriggerType.below = .below →
      (mkTriggerSetup Channel.A TriggerType.below).introCount = 0) := by
  refine ⟨c8_trigger_encoding.2.1 [Channel.A] Channel.B TriggerType.rising (by decide),
    c8_trigger_encoding.2.2.1 [Channel.A] none TriggerType.falling
      (mkTriggerSetup Channel.A TriggerType.falling) rfl,
    (c8_trigger_encoding.2.2.2 [Channel.A] none TriggerType.rising
      (mkTriggerSetup Channel.A TriggerType.rising) rfl).1,
    (c8_trigger_encoding.2.2.2 [Channel.A] none TriggerType.below
      (mkTriggerSetup Channel.A TriggerType.below) rfl).2⟩

/- ===================== C3 ===================== -/

/-- C3: the capture decoder maps a raw 1-byte sample b to b/256 (0x00 to 0.0,
0xFF to 255/256), a raw 2-byte big-endian signed sample v to v/65536 + 1/2
(0x0000 to 0.5, 0x7FFF to 0.5 + 32767/65536), and in non-raw mode every
normalized value x is mapped affinely to x*(high-low)+low. -/
theorem c3_decode :
    (∀ b : ℕ, decodeTrace 1 true 0 1 [b] = [(b : ℚ) / 256]) ∧
    (∀ hi lo : ℕ, decodeTrace 2 true 0 1 [hi, lo] = [(toInt16 hi lo : ℚ) / 65536 + 1/2]) ∧
    decodeTrace 1 true 0 1 [0x00] = [0] ∧
    decodeTrace 1 true 0 1 [0xFF] = [255/256] ∧
    decodeTrace 2 true 0 1 [0x00, 0x00] = [1/2] ∧
    decodeTrace 2 true 0 1 [0x7F, 0xFF] = [1/2 + 32767/65536] ∧
    (∀ (sw : ℕ) (low high : ℚ) (data : List ℕ),
      decodeTrace sw false low high data =
        (decodeTrace sw true 0 1 data).map (fun x => x * (high - low) + low)) := by
  refine ⟨?_, ?_, ?_, ?_, ?_, ?_, ?_⟩
  · intro b
    simp [decodeTrace]
  · intro hi lo
    simp [decodeTrace, unpackBE]
  · norm_num [decodeTrace]
  · norm_num [decodeTrace]
  · norm_num [decodeTrace, unpackBE, toInt16]
  · norm_num [decodeTrace, unpackBE, toInt16]
  · intro sw low high data
    unfold decodeTrace
    by_cases h : sw = 2
    · rw [if_pos h, if_pos h, if_neg Bool.false_ne_true, if_pos rfl, List.map_map]
      rfl
    · rw [if_neg h, if_neg h, if_neg Bool.false_ne_true, if_pos rfl, List.map_map]
      rfl

/- ===================== C7 ===================== -/

theorem streamInv_initial : streamInv initialStream := by
  constructor
  · rfl
  · simp [initialStream]

theorem bool_eq_true_of_ne_false {b : Bool} (h : ¬b = false) : b = true := by
  cases hb : b
  · exact absurd hb h
  · rfl

theorem writeTry_spec (accept : ℕ) (data : List ℕ) (s : StreamState) :
    (writeTry accept data s).accepted ++ (writeTry accept data s).outputBuffer =
      s.accepted ++ s.outputBuffer ++ data ∧
    (writeTry accept data s).futureLive = s.futureLive ∧
    (writeTry accept data s).written = s.written ++ data ∧
    (s.outputBuffer ≠ [] → (writeTry accept data s).outputBuffer ≠ []) := by
  unfold writeTry
  by_cases hb : s.outputBuffer = []
  · rw [if_pos hb]
    refine ⟨?_, rfl, rfl, fun h => absurd hb h⟩
    show s.accepted ++ data.take accept ++ data.drop accept = s.accepted ++ s.outputBuffer ++ data
    rw [hb, List.append_nil, List.append_assoc, List.take_append_drop]
  · rw [if_neg hb]
    refine ⟨?_, rfl, rfl, fun _ => by simp [hb]⟩
    show s.accepted ++ (s.outputBuffer ++ data) = s.accepted ++ s.outputBuffer ++ data
    rw [List.append_assoc]

theorem streamInv_step {s : StreamState} (e : StreamEvent) (h : streamInv s) :
    streamInv (streamStep s e) := by
  obtain ⟨h1, h2⟩ := h
  cases e with
  | write accept data =>
    obtain ⟨w1, w2, w3, w4⟩ := writeTry_spec accept data s
    show streamInv (writeOp accept data s)
    unfold writeOp
    by_cases hc : (writeTry accept data s).outputBuffer ≠ [] ∧
        (writeTry accept data s).futureLive = false
    · rw [if_pos hc]
      refine ⟨?_, fun _ => hc.1, fun _ => rfl⟩
      show (writeTry accept data s).accepted ++ (writeTry accept data s).outputBuffer =
        (writeTry accept data s).written
      rw [w1, w3, h1]
    · rw [if_neg hc]
      refine ⟨by rw [w1, w3, h1], ?_, ?_⟩
      · intro hf
        rw [w2] at hf
        exact w4 (h2.mp hf)
      · intro hbne
        apply bool_eq_true_of_ne_false
        intro hf
        exact hc ⟨hbne, hf⟩
  | feed accept =>
    show streamInv (feedOp accept s)
    unfold feedOp
    by_cases hlive : s.futureLive = false
    · rw [if_pos hlive]
      exact ⟨h1, h2⟩
    · rw [if_neg hlive]
      by_cases hd : s.outputBuffer.drop accept = []
      · rw [if_pos hd]
        refine ⟨?_, by simp⟩
        show s.accepted ++ s.outputBuffer.take accept ++ [] = s.written
        rw [List.append_nil]
        calc s.accepted ++ s.outputBuffer.take accept
            = s.accepted ++ (s.outputBuffer.take accept ++ s.outputBuffer.drop accept) := by
              rw [hd, List.append_nil]
          _ = s.accepted ++ s.outputBuffer := by rw [List.take_append_drop]
          _ = s.written := h1
      · rw [if_neg hd]
        refine ⟨?_, fun _ => hd, fun _ => bool_eq_true_of_ne_false hlive⟩
        show s.accepted ++ s.outputBuffer.take accept ++ s.outputBuffer.drop accept = s.written
        rw [List.append_assoc, List.take_append_drop]
        exact h1

theorem streamInv_run : ∀ (evs : List StreamEvent) (s : StreamState),
    streamInv s → streamInv (runEvents evs s)
  | [], s, h => h
  | e :: evs, s, h => streamInv_run evs (streamStep s e) (streamInv_step e h)

/-- C7: for any sequence of writes and device-readiness callbacks, each
accepting arbitrarily few bytes per attempt (in particular at most 3), the
bytes the device has accepted followed by the pending output buffer are
exactly the bytes written, in order (each write's unwritten remainder is
appended to the buffer in order); drain — which suspends exactly while the
completion future exists — can only return once the buffer has fully
flushed, i.e. once every written byte has been accepted; and when the output
buffer is already empty there is no live future, so drain returns
immediately. -/
theorem c7_write_drain (evs : List StreamEvent) :
    (runEvents evs initialStream).accepted ++ (runEvents evs initialStream).outputBuffer =
      (runEvents evs initialStream).written ∧
    ((runEvents evs initialStream).futureLive = false →
      (runEvents evs initialStream).accepted = (runEvents evs initialStream).written) ∧
    ((runEvents evs initialStream).outputBuffer = [] →
      (runEvents evs initialStream).futureLive = false) := by
  obtain ⟨h1, h2⟩ := streamInv_run evs initialStream streamInv_initial
  refine ⟨h1, ?_, ?_⟩
  · intro hf
    have hbuf : (runEvents evs initialStream).outputBuffer = [] := by
      by_contra hne
      rw [h2.mpr hne] at hf
      cases hf
    rw [← h1, hbuf, List.append_nil]
  · intro hbuf
    cases hf : (runEvents evs initialStream).futureLive
    · rfl
    · exact absurd (h2.mp hf) (by simp [hbuf])

/-- C7 witness: a 7-byte write against a device that accepts at most 3 bytes
per attempt; after two readiness callbacks the buffer is flushed, drain can
return, and the accepted bytes equal the written bytes in order. -/
theorem c7_write_drain_witness :
    (runEvents [.write 3 [1, 2, 3, 4, 5, 6, 7], .feed 3, .feed 3] initialStream).accepted =
      (runEvents [.write 3 [1, 2, 3, 4, 5, 6, 7], .feed 3, .feed 3] initialStream).written :=
  (c7_write_drain [.write 3 [1, 2, 3, 4, 5, 6, 7], .feed 3, .feed 3]).2.1 (by decide)

/- ===================== C6 ===================== -/

theorem encodeF32Sig_lt (m e : ℤ) : encodeF32Sig m e < 2147483648 := by
  unfold encodeF32Sig
  split_ifs <;> omega

theorem encodeF32_lt (q : ℚ) : encodeF32 q < 4294967296 := by
  unfold encodeF32
  have h1 := encodeF32Sig_lt (roundHalfEven (|q| * (2 : ℚ) ^ (23 - max (Int.log 2 |q|) (-126))))
    (max (Int.log 2 |q|) (-126))
  split_ifs <;> omega

/-- C6: running save_params and then load_params on the same EEPROM image
restores both coefficient tuples up to single-precision rounding of each
coefficient (`fl32` is the binary32 pack/unpack rounding), and load_params on
an image whose first two little-endian bytes do not form the magic 0xB0B2
leaves both coefficient tuples exactly at their pre-load values. -/
theorem c6_params_roundtrip :
    (∀ (lks hks : Coeffs) (ee : ℕ → ℕ) (cur : Coeffs × Coeffs),
        loadParams (saveParams lks hks ee) cur =
          ((fl32 lks.1, fl32 lks.2.1, fl32 lks.2.2),
           (fl32 hks.1, fl32 hks.2.1, fl32 hks.2.2))) ∧
    (∀ (ee : ℕ → ℕ) (cur : Coeffs × Coeffs),
        ee 100 + 256 * ee 101 ≠ PARAMS_MAGIC → loadParams ee cur = cur) := by
  constructor
  · intro lks hks ee cur
    have hmagic : saveParams lks hks ee 100 + 256 * saveParams lks hks ee 101 =
        PARAMS_MAGIC := by
      norm_num [saveParams, packByte, PARAMS_MAGIC]
    have h0 : saveParams lks hks ee 102 + 256 * saveParams lks hks ee 103 +
        65536 * saveParams lks hks ee 104 + 16777216 * saveParams lks hks ee 105 =
        encodeF32 lks.1 := by
      have hlt := encodeF32_lt lks.1
      norm_num [saveParams, packByte, fieldCoeff]
      omega
    have h1 : saveParams lks hks ee 106 + 256 * saveParams lks hks ee 107 +
        65536 * saveParams lks hks ee 108 + 16777216 * saveParams lks hks ee 109 =
        encodeF32 lks.2.1 := by
      have hlt := encodeF32_lt lks.2.1
      norm_num [saveParams, packByte, fieldCoeff]
      omega
    have h2 : saveParams lks hks ee 110 + 256 * saveParams lks hks ee 111 +
        65536 * saveParams lks hks ee 112 + 16777216 * saveParams lks hks ee 113 =
        encodeF32 lks.2.2 := by
      have hlt := encodeF32_lt lks.2.2
      norm_num [saveParams, packByte, fieldCoeff]
      omega
    have h3 : saveParams lks hks ee 114 + 256 * saveParams lks hks ee 115 +
        65536 * saveParams lks hks ee 116 + 16777216 * saveParams lks hks ee 117 =
        encodeF32 hks.1 := by
      have hlt := encodeF32_lt hks.1
      norm_num [saveParams, packByte, fieldCoeff]
      omega
    have h4 : saveParams lks hks ee 118 + 256 * saveParams lks hks ee 119 +
        65536 * saveParams lks hks ee 120 + 16777216 * saveParams lks hks ee 121 =
        encodeF32 hks.2.1 := by
      have hlt := encodeF32_lt hks.2.1
      norm_num [saveParams, packByte, fieldCoeff]
      omega
    have h5 : saveParams lks hks ee 122 + 256 * saveParams lks hks ee 123 +
        65536 * saveParams lks hks ee 124 + 16777216 * saveParams lks hks ee 125 =
        encodeF32 hks.2.2 := by
      have hlt := encodeF32_lt hks.2.2
      norm_num [saveParams, packByte, fieldCoeff]
      omega
    simp only [loadParams, readF32]
    norm_num
    rw [hmagic, if_pos rfl, h0, h1, h2, h3, h4, h5]
    rfl
  · intro ee cur h
    unfold loadParams
    rw [if_neg (by simpa using h)]

/-- C6 witness: an all-zero image has the wrong magic, so loading leaves the
coefficients untouched; and a concrete save/load round trip applies `fl32`
to every coefficient. -/
theorem c6_params_roundtrip_witness :
    loadParams (fun _ => 0) ((1, 2, 3), (4, 5, 6)) = ((1, 2, 3), (4, 5, 6)) ∧
    loadParams (saveParams (1/2, 1/4, 3) (0, 5, 100) (fun _ => 0)) ((7, 7, 7), (7, 7, 7)) =
      ((fl32 (1/2), fl32 (1/4), fl32 3), (fl32 0, fl32 5, fl32 100)) :=
  ⟨c6_params_roundtrip.2 (fun _ => 0) ((1, 2, 3), (4, 5, 6)) (by norm_num [PARAMS_MAGIC]),
   c6_params_roundtrip.1 (1/2, 1/4, 3) (0, 5, 100) (fun _ => 0) ((7, 7, 7), (7, 7, 7))⟩

/- ===================== C10 ===================== -/

theorem unpackBE_length : ∀ l : List ℕ, (unpackBE l).length = l.length / 2
  | [] => by simp [unpackBE]
  | [_] => by simp [unpackBE]
  | a :: b :: rest => by
      show (toInt16 a b :: unpackBE rest).length = (a :: b :: rest).length / 2
      simp only [List.length_cons, unpackBE_length rest]
      omega

theorem decodeTrace_length {sw : ℕ} (hsw : sw = 1 ∨ sw = 2) (raw : Bool) (low high : ℚ)
    {ns : ℕ} {data : List ℕ} (hd : data.length = ns * sw) :
    (decodeTrace sw raw low high data).length = ns := by
  rcases hsw with h | h
  · subst h
    unfold decodeTrace
    rw [if_neg (by norm_num)]
    cases raw <;> simp [hd]
  · subst h
    unfold decodeTrace
    rw [if_pos rfl]
    cases raw <;> simp [unpackBE_length, hd]

theorem dictInsert_mem (k : Channel) (v : List ℚ) (d : List (Channel × List ℚ)) (c : Channel) :
    (∃ tr, (c, tr) ∈ dictInsert k v d) ↔ c = k ∨ ∃ tr, (c, tr) ∈ d := by
  induction d with
  | nil => simp [dictInsert]
  | cons p rest ih =>
    obtain ⟨k1, v1⟩ := p
    unfold dictInsert
    split_ifs with hk
    · subst hk
      simp only [List.mem_cons, Prod.mk.injEq, exists_or, exists_and_left, exists_eq_right]
      tauto
    · simp only [List.mem_cons, Prod.mk.injEq, exists_or, exists_and_left, exists_eq_right] at ih ⊢
      rw [ih]
      tauto

theorem dictInsert_forall (P : List ℚ → Prop) (k : Channel) (v : List ℚ) (hv : P v) :
    ∀ (d : List (Channel × List ℚ)), (∀ q ∈ d, P q.2) → ∀ q ∈ dictInsert k v d, P q.2 := by
  intro d
  induction d with
  | nil =>
    intro _ q hq
    simp only [dictInsert, List.mem_singleton] at hq
    subst hq
    exact hv
  | cons p rest ih =>
    obtain ⟨k1, v1⟩ := p
    intro hd q hq
    unfold dictInsert at hq
    split_ifs at hq with hk
    · rcases List.mem_cons.mp hq with heq | h2
      · rw [heq]
        exact hv
      · exact hd q (List.mem_cons_of_mem _ h2)
    · rcases List.mem_cons.mp hq with heq | h2
      · rw [heq]
        exact hd (k1, v1) (List.mem_cons_self _ _)
      · exact ih (fun r hr => hd r (List.mem_cons_of_mem _ hr)) q h2

theorem captureTracesAux_mem (ns sw : ℕ) (raw : Bool) (low high : ℚ) (dev : ℕ → ℕ) :
    ∀ (cs : List Channel) (off : ℕ) (acc : List (Channel × List ℚ)) (c : Channel),
      (∃ tr, (c, tr) ∈ captureTracesAux ns sw raw low high dev cs off acc) ↔
        c ∈ cs ∨ ∃ tr, (c, tr) ∈ acc := by
  intro cs
  induction cs with
  | nil =>
    intro off acc c
    simp [captureTracesAux]
  | cons c0 rest ih =>
    intro off acc c
    show (∃ tr, (c, tr) ∈ captureTracesAux ns sw raw low high dev rest (off + ns * sw)
        (dictInsert c0 (decodeTrace sw raw low high (readChunk dev off (ns * sw))) acc)) ↔ _
    rw [ih, dictInsert_mem]
    simp only [List.mem_cons]
    tauto

theorem captureTracesAux_len (ns sw : ℕ) (raw : Bool) (low high : ℚ) (dev : ℕ → ℕ)
    (hsw : sw = 1 ∨ sw = 2) :
    ∀ (cs : List Channel) (off : ℕ) (acc : List (Channel × List ℚ)),
      (∀ q ∈ acc, q.2.length = ns) →
      ∀ q ∈ captureTracesAux ns sw raw low high dev cs off acc, q.2.length = ns := by
  intro cs
  induction cs with
  | nil =>
    intro off acc hacc
    exact hacc
  | cons c0 rest ih =>
    intro off acc hacc
    show ∀ q ∈ captureTracesAux ns sw raw low high dev rest (off + ns * sw)
        (dictInsert c0 (decodeTrace sw raw low high (readChunk dev off (ns * sw))) acc), _
    apply ih
    exact dictInsert_forall (fun tr => tr.length = ns) c0 _
      (decodeTrace_length hsw raw low high (by simp [readChunk])) acc hacc

theorem capturePlan_demo_999 :
    capturePlan [Channel.A] (1/1000) 999 =
      .ok ⟨1, ⟨40, 2, 6144, .Native, .Macro, .Macro⟩, 1000, 1000⟩ := by
  have hreg : captureRegime (dualChannel [Channel.A])
      (captureTicks (1/1000) 999 (nsamplesMultiplier [Channel.A])) =
      .ok ⟨40, 2, 6144, .Native, .Macro, .Macro⟩ := by
    have ht : captureTicks (1/1000) 999 (nsamplesMultiplier [Channel.A]) = 40 := by
      rw [show nsamplesMultiplier [Channel.A] = 1 from rfl]
      unfold captureTicks pytrunc
      norm_num [capture_clock_period]
    rw [ht, show dualChannel [Channel.A] = false from rfl]
    exact captureRegime_native (by norm_num) (by norm_num)
  rw [capturePlan_eq_of hreg]
  rw [show nsamplesMultiplier [Channel.A] = 1 from rfl]
  norm_num [roundHalfEven, capture_clock_period]

theorem capturePlan_demo_1000 :
    capturePlan [Channel.A] (1/1000) 1000 =
      .ok ⟨1, ⟨40, 2, 6144, .Native, .Macro, .Macro⟩, 1000, 1000⟩ := by
  have hreg : captureRegime (dualChannel [Channel.A])
      (captureTicks (1/1000) 1000 (nsamplesMultiplier [Channel.A])) =
      .ok ⟨40, 2, 6144, .Native, .Macro, .Macro⟩ := by
    have ht : captureTicks (1/1000) 1000 (nsamplesMultiplier [Channel.A]) = 40 := by
      rw [show nsamplesMultiplier [Channel.A] = 1 from rfl]
      unfold captureTicks pytrunc
      norm_num [capture_clock_period]
    rw [ht, show dualChannel [Channel.A] = false from rfl]
    exact captureRegime_native (by norm_num) (by norm_num)
  rw [capturePlan_eq_of hreg]
  rw [show nsamplesMultiplier [Channel.A] = 1 from rfl]
  norm_num [roundHalfEven, capture_clock_period]

/-- C10: whenever capture returns normally, the returned dictionary has
exactly the requested channels as keys, and every channel's trace has length
equal to the recomputed sample count (the plan's nsamples) — which can differ
from the nsamples argument the caller passed: requesting 999 samples over
1 ms yields a recomputed count of 1000. -/
theorem c10_result_shape :
    (∀ (channels : List Channel) (period : ℚ) (n : ℕ) (p : CapturePlan) (raw : Bool)
        (low high : ℚ) (dev : ℕ → ℕ),
      capturePlan channels period n = .ok p →
      ((∀ c, (∃ tr, (c, tr) ∈ captureTraces channels p.nsamples.toNat p.regime.sampleWidth
          raw low high dev) ↔ c ∈ channels) ∧
       (∀ q ∈ captureTraces channels p.nsamples.toNat p.regime.sampleWidth raw low high dev,
          q.2.length = p.nsamples.toNat))) ∧
    (∃ p : CapturePlan, capturePlan [Channel.A] (1/1000) 999 = .ok p ∧
      p.nsamples = 1000 ∧ (999 : ℤ) ≠ p.nsamples) := by
  constructor
  · intro channels period n p raw low high dev h
    have hsw : p.regime.sampleWidth = 1 ∨ p.regime.sampleWidth = 2 :=
      captureRegime_width (capturePlan_ok_shape h).1
    constructor
    · intro c
      unfold captureTraces
      rw [captureTracesAux_mem]
      simp [sortChannels]
    · intro q hq
      exact captureTracesAux_len _ _ raw low high dev hsw (sortChannels channels) 0 []
        (by simp) q hq
  · exact ⟨⟨1, ⟨40, 2, 6144, .Native, .Macro, .Macro⟩, 1000, 1000⟩,
      capturePlan_demo_999, rfl, by norm_num⟩

/-- C10 witness: a concrete successful capture plan (1000 samples over 1 ms,
channel A, native regime) applied to the shape theorem. -/
theorem c10_result_shape_witness :
    (∀ c, (∃ tr, (c, tr) ∈ captureTraces [Channel.A] 1000 2 true 0 1 (fun _ => 0)) ↔
        c ∈ [Channel.A]) ∧
    (∀ q ∈ captureTraces [Channel.A] 1000 2 true 0 1 (fun _ => 0), q.2.length = 1000) :=
  c10_result_shape.1 [Channel.A] (1/1000) 1000
    ⟨1, ⟨40, 2, 6144, .Native, .Macro, .Macro⟩, 1000, 1000⟩ true 0 1 (fun _ => 0)
    capturePlan_demo_1000

/- ===================== C4 and C5 ===================== -/

theorem pickBest_mem : ∀ (l : List GenCandidate) (b : GenCandidate), pickBest b l ∈ b :: l := by
  intro l
  induction l with
  | nil =>
    intro b
    show b ∈ [b]
    exact List.mem_singleton_self b
  | cons c rest ih =>
    intro b
    show pickBest (if candKey b ≤ candKey c then c else b) rest ∈ b :: c :: rest
    rcases List.mem_cons.mp (ih (if candKey b ≤ candKey c then c else b)) with heq | hmem
    · rw [heq]
      split_ifs
      · exact List.mem_cons_of_mem _ (List.mem_cons_self _ _)
      · exact List.mem_cons_self _ _
    · exact List.mem_cons_of_mem _ (List.mem_cons_of_mem _ hmem)

theorem pickBest_le : ∀ (l : List GenCandidate) (b x : GenCandidate),
    x ∈ b :: l → candKey x ≤ candKey (pickBest b l) := by
  intro l
  induction l with
  | nil =>
    intro b x hx
    rw [List.mem_singleton.mp hx]
    exact le_refl _
  | cons c rest ih =>
    intro b x hx
    show candKey x ≤ candKey (pickBest (if candKey b ≤ candKey c then c else b) rest)
    by_cases hbc : candKey b ≤ candKey c
    · rw [if_pos hbc]
      rcases List.mem_cons.mp hx with heq | hx2
      · rw [heq]
        exact le_trans hbc (ih c c (List.mem_cons_self _ _))
      · exact ih c x hx2
    · rw [if_neg hbc]
      have hcb : candKey c ≤ candKey b := le_of_not_le hbc
      rcases List.mem_cons.mp hx with heq | hx2
      · rw [heq]
        exact ih b b (List.mem_cons_self _ _)
      · rcases List.mem_cons.mp hx2 with heq | hx3
        · rw [heq]
          exact le_trans hcb (ih b b (List.mem_cons_self _ _))
        · exact ih b x (List.mem_cons_of_mem _ hx3)

theorem candAt_some {f me : ℚ} {k : ℕ} {c : GenCandidate} (h : candAt f me k = some c) :
    c = ⟨decide (errorAt f k = 0), width2At f k, sizeAt f k, nwavesAt f k, k, actualfAt f k⟩ ∧
    errorAt f k < me ∧ widthAt f k ≤ (awg_sample_buffer_size : ℚ) := by
  unfold candAt at h
  split_ifs at h with h1 h2
  exact ⟨(Option.some.inj h).symm, h2, h1⟩

theorem genCandidates_mem {f : ℚ} {ms : ℕ} {me : ℚ} {c : GenCandidate}
    (h : c ∈ genCandidates f ms me) :
    ∃ k, c = ⟨decide (errorAt f k = 0), width2At f k, sizeAt f k, nwavesAt f k, k,
        actualfAt f k⟩ ∧
      errorAt f k < me ∧ widthAt f k ≤ (awg_sample_buffer_size : ℚ) := by
  unfold genCandidates at h
  obtain ⟨k, _, hcand⟩ := List.mem_filterMap.mp h
  exact ⟨k, candAt_some hcand⟩

theorem candAt_of_exact {f me : ℚ} {ms k : ℕ} (hf : 0 < f) (hme : 0 < me)
    (hex : exactAt f ms k) :
    candAt f me k = some ⟨true, width2At f k, sizeAt f k, nwavesAt f k, k, actualfAt f k⟩ := by
  obtain ⟨h1, h2, h3, h4⟩ := hex
  have herr : errorAt f k = 0 := by
    unfold errorAt
    rw [h4]
    simp
  unfold candAt
  rw [if_pos h3, if_pos (by rw [herr]; exact hme)]
  simp [herr]

theorem exact_mem_range {f : ℚ} {ms k : ℕ} (hex : exactAt f ms k) :
    k ∈ List.range' awg_minimum_clock (maxClock f ms + 1 - awg_minimum_clock).toNat := by
  obtain ⟨h1, h2, _, _⟩ := hex
  rw [List.mem_range'_1]
  unfold awg_minimum_clock at h1 ⊢
  refine ⟨h1, ?_⟩
  omega

theorem errorAt_zero_actualf {f : ℚ} {k : ℕ} (hf : 0 < f) (h : errorAt f k = 0) :
    actualfAt f k = f := by
  unfold errorAt at h
  rw [div_eq_zero_iff] at h
  rcases h with h | h
  · have := abs_eq_zero.mp h
    linarith [sub_eq_zero.mp this]
  · exact absurd h (ne_of_gt hf)

theorem exact_of_key_le {f : ℚ} {k : ℕ} {c d : GenCandidate} (hf : 0 < f)
    (hc : c.isExact = true) (hle : candKey c ≤ candKey d) : d.isExact = true := by
  rw [candKey, candKey, Prod.Lex.le_iff] at hle
  dsimp only at hle
  rcases hle with hlt | ⟨heq, _⟩
  · cases hd : d.isExact
    · rw [hc, hd] at hlt
      exact absurd hlt (by decide)
    · rfl
  · rw [← heq, hc]

/-- C4 (amended): with a strictly positive max_error, a target frequency that
is exactly representable by some clock divisor in the searched range makes
start_generator return an achieved frequency equal to the target (the strict
error test `error < max_error` means max_error = 0 never accepts anything);
and when no divisor qualifies, start_generator raises the no-solution error. -/
theorem c4_exact_and_no_solution :
    (∀ (f : ℚ) (minSamples : ℕ) (maxError : ℚ), 0 < f → 0 < maxError →
      (∃ clock, exactAt f minSamples clock) →
      ∃ c, startGeneratorPlan f minSamples maxError = .ok c ∧ c.actualf = f) ∧
    (∀ (f : ℚ) (minSamples : ℕ) (maxError : ℚ),
      genCandidates f minSamples maxError = [] →
      startGeneratorPlan f minSamples maxError = .error .noSolution) := by
  constructor
  · intro f ms me hf hme hex
    obtain ⟨clock, hex⟩ := hex
    have hmem : (⟨true, width2At f clock, sizeAt f clock, nwavesAt f clock, clock,
        actualfAt f clock⟩ : GenCandidate) ∈ genCandidates f ms me := by
      unfold genCandidates
      exact List.mem_filterMap.mpr ⟨clock, exact_mem_range hex, candAt_of_exact hf hme hex⟩
    cases hg : genCandidates f ms me with
    | nil =>
      rw [hg] at hmem
      exact absurd hmem (by simp)
    | cons c0 rest =>
      refine ⟨pickBest c0 rest, ?_, ?_⟩
      · unfold startGeneratorPlan
        rw [hg]
      · have hret : pickBest c0 rest ∈ genCandidates f ms me := by
          rw [hg]
          exact pickBest_mem rest c0
        obtain ⟨k, hck, _, _⟩ := genCandidates_mem hret
        have hle : candKey (⟨true, width2At f clock, sizeAt f clock, nwavesAt f clock, clock,
            actualfAt f clock⟩ : GenCandidate) ≤ candKey (pickBest c0 rest) := by
          apply pickBest_le
          rw [← hg]
          exact hmem
        have hexact : (pickBest c0 rest).isExact = true :=
          exact_of_key_le (k := k) hf rfl hle
        rw [hck] at hexact ⊢
        have herr0 : errorAt f k = 0 := by
          have : decide (errorAt f k = 0) = true := hexact
          exact of_decide_eq_true this
        exact errorAt_zero_actualf hf herr0
  · intro f ms me h
    unfold startGeneratorPlan
    rw [h]

/-- C4 counterexample: the target 16000 Hz is exactly representable by clock
divisor 40 inside the searched range, yet start_generator with max_error = 0
raises the no-solution error instead of returning it (the error test is
strict), refuting the claim as stated. -/
theorem c4_counterexample :
    exactAt 16000 50 40 ∧ startGeneratorPlan 16000 50 0 = .error .noSolution := by
  constructor
  · refine ⟨by norm_num [awg_minimum_clock], ?_, ?_, ?_⟩
    · show (40 : ℤ) ≤ maxClock 16000 50
      unfold maxClock roundHalfEven
      norm_num [awg_clock_period]
    · unfold widthAt awg_clock_period awg_sample_buffer_size
      norm_num
    · unfold actualfAt width2At sizeAt nwavesAt widthAt pytrunc roundHalfEven
      norm_num [awg_clock_period, awg_sample_buffer_size]
  · have hcand : ∀ k : ℕ, candAt 16000 0 k = none := by
      intro k
      unfold candAt
      split_ifs with h1 h2
      · exfalso
        have : (0:ℚ) ≤ errorAt 16000 k := by
          unfold errorAt
          positivity
      
        linarith
      · rfl
      · rfl
    have hempty : genCandidates 16000 50 0 = [] := by
      unfold genCandidates
      rw [List.filterMap_eq_nil]
      intro k _
      rw [hcand k]
    unfold startGeneratorPlan
    rw [hempty]

/-- C4 witness: the target 800000/33 Hz is exactly representable at clock
divisor 33, and with a positive max_error the returned plan achieves it. -/
theorem c4_exact_witness :
    ∃ c, startGeneratorPlan (800000/33) 50 (1/1000) = .ok c ∧ c.actualf = 800000/33 := by
  apply c4_exact_and_no_solution.1 (800000/33) 50 (1/1000) (by norm_num) (by norm_num)
  refine ⟨33, le_refl _, ?_, ?_, ?_⟩
  · show (33 : ℤ) ≤ maxClock (800000/33) 50
    unfold maxClock roundHalfEven
    norm_num [awg_clock_period]
  · unfold widthAt awg_clock_period awg_sample_buffer_size
    norm_num
  · unfold actualfAt width2At sizeAt nwavesAt widthAt pytrunc roundHalfEven
    norm_num [awg_clock_period, awg_sample_buffer_size]

theorem candKey_le_proj {a b : GenCandidate} (h : candKey a ≤ candKey b) :
    toLex (a.isExact, a.width) ≤ toLex (b.isExact, b.width) := by
  rw [candKey, candKey, Prod.Lex.le_iff] at h
  dsimp only at h
  rw [Prod.Lex.le_iff]
  rcases h with h | ⟨h1, h2⟩
  · exact Or.inl h
  · right
    refine ⟨h1, ?_⟩
    rw [Prod.Lex.le_iff] at h2
    dsimp only at h2
    rcases h2 with h2 | ⟨h2a, _⟩
    · exact le_of_lt h2
    · exact le_of_eq h2a

/-- C5: every plan start_generator returns has fractional error strictly below
max_error, and is maximal among all collected candidates under the ordering
(is-exact, per-period sample width): exact candidates beat inexact ones and
larger widths beat smaller ones. -/
theorem c5_selection_rule :
    ∀ (f : ℚ) (minSamples : ℕ) (maxError : ℚ) (c : GenCandidate),
      startGeneratorPlan f minSamples maxError = .ok c →
      |f - c.actualf| / f < maxError ∧
      ∀ d ∈ genCandidates f minSamples maxError,
        toLex (d.isExact, d.width) ≤ toLex (c.isExact, c.width) := by
  intro f ms me c hok
  unfold startGeneratorPlan at hok
  cases hg : genCandidates f ms me with
  | nil =>
    rw [hg] at hok
    exact absurd hok (by simp)
  | cons c0 rest =>
    rw [hg] at hok
    have hc : c = pickBest c0 rest := (Except.ok.inj hok).symm
    constructor
    · have hmem : c ∈ genCandidates f ms me := by
        rw [hg, hc]
        exact pickBest_mem rest c0
      obtain ⟨k, hck, hklt, _⟩ := genCandidates_mem hmem
      rw [hck]
      show |f - actualfAt f k| / f < me
      exact hklt
    · intro d hd
      apply candKey_le_proj
      rw [hc]
      exact pickBest_le rest c0 d hd

theorem startGeneratorPlan_demo :
    startGeneratorPlan (800000/33) 50 (1/1000) =
      .ok ⟨true, 50, 1000, 20, 33, 800000/33⟩ := by
  have hmax : maxClock (800000/33) 50 = 33 := by
    unfold maxClock roundHalfEven
    norm_num [awg_clock_period]
  have hcand : candAt (800000/33) (1/1000) 33 =
      some ⟨true, 50, 1000, 20, 33, 800000/33⟩ := by
    have hw : widthAt (800000/33) 33 = 50 := by
      unfold widthAt awg_clock_period
      norm_num
    have hnw : nwavesAt (800000/33) 33 = 20 := by
      unfold nwavesAt pytrunc awg_sample_buffer_size
      rw [hw]
      norm_num
    have hsz : sizeAt (800000/33) 33 = 1000 := by
      unfold sizeAt roundHalfEven
      rw [hnw, hw]
      norm_num
    have hw2 : width2At (800000/33) 33 = 50 := by
      unfold width2At
      rw [hsz, hnw]
      norm_num
    have haf : actualfAt (800000/33) 33 = 800000/33 := by
      unfold actualfAt awg_clock_period
      rw [hw2]
      norm_num
    have herr : errorAt (800000/33) 33 = 0 := by
      unfold errorAt
      rw [haf]
      norm_num
    unfold candAt
    rw [hw, herr, hw2, hsz, hnw, haf]
    norm_num [awg_sample_buffer_size]
  have hlist : genCandidates (800000/33) 50 (1/1000) =
      [⟨true, 50, 1000, 20, 33, 800000/33⟩] := by
    unfold genCandidates
    rw [hmax]
    norm_num [awg_minimum_clock, List.range']
    simp only [List.filterMap_cons]
    rw [hcand]
    simp
  unfold startGeneratorPlan
  rw [hlist]
  rfl

/-- C5 witness: a concrete accepted plan (exact 800000/33 Hz at clock 33)
satisfies the error bound and is maximal among the candidates. -/
theorem c5_selection_rule_witness :
    |800000/33 - (⟨true, 50, 1000, 20, 33, 800000/33⟩ : GenCandidate).actualf| / (800000/33)
        < 1/1000 ∧
      ∀ d ∈ genCandidates (800000/33) 50 (1/1000),
        toLex (d.isExact, d.width) ≤
          toLex ((⟨true, 50, 1000, 20, 33, 800000/33⟩ : GenCandidate).isExact,
            (⟨true, 50, 1000, 20, 33, 800000/33⟩ : GenCandidate).width) :=
  c5_selection_rule (800000/33) 50 (1/1000) ⟨true, 50, 1000, 20, 33, 800000/33⟩
    startGeneratorPlan_demo

/- ===================== C1 ===================== -/

/-- C1 counterexample: the request period = 1/25 s, nsamples = 40000 on
channel A computes ticks = 40 (inside [2, 65536), so no clock-period error),
yet the recomputed total_samples is 40000 > 6144 and the buffer assertion in
capture fails. -/
theorem c1_counterexample :
    captureTicks (1/25) 40000 (nsamplesMultiplier [Channel.A]) = 40 ∧
    capturePlan [Channel.A] (1/25) 40000 = .error .assertionFailed := by
  have ht : captureTicks (1/25) 40000 (nsamplesMultiplier [Channel.A]) = 40 := by
    rw [show nsamplesMultiplier [Channel.A] = 1 from rfl]
    unfold captureTicks pytrunc
    norm_num [capture_clock_period]
  refine ⟨ht, ?_⟩
  have hreg : captureRegime (dualChannel [Channel.A])
      (captureTicks (1/25) 40000 (nsamplesMultiplier [Channel.A])) =
      .ok ⟨40, 2, 6144, .Native, .Macro, .Macro⟩ := by
    rw [ht, show dualChannel [Channel.A] = false from rfl]
    exact captureRegime_native (by norm_num) (by norm_num)
  rw [capturePlan_eq_of hreg, show nsamplesMultiplier [Channel.A] = 1 from rfl]
  norm_num [roundHalfEven, capture_clock_period]

theorem captureRegime_c1 (dual : Bool) {t : ℤ} (h2 : 2 ≤ t) (h65536 : t < 65536) :
    ∃ r, captureRegime dual t = .ok r ∧ 0 < r.ticks ∧
      (t + 1) * 5993 ≤ (r.bufferWidth - 1) * r.ticks := by
  by_cases h40 : 40 ≤ t
  · refine ⟨_, captureRegime_native h40 h65536, ?_, ?_⟩ <;> dsimp only <;> omega
  · by_cases h15 : 15 ≤ t
    · refine ⟨_, captureRegime_analog h15 (by omega), ?_, ?_⟩ <;> dsimp only <;> omega
    · by_cases h8 : 8 ≤ t
      · refine ⟨_, captureRegime_fast h8 (by omega), ?_, ?_⟩ <;> dsimp only <;> omega
      · refine ⟨_, captureRegime_shot h2 (by omega), ?_, ?_⟩ <;> dsimp only <;>
          split_ifs <;> omega

/-- C1 (amended): the buffer assertion cannot fail as long as the requested
nsamples times the channel multiplier is at most 5993: for every capture
request with positive period, nsamples at least 1, nsamples times multiplier
at most 5993 and computed ticks in [2, 65536), the plan succeeds and the
recomputed total_samples is at most the selected regime's buffer width.
(The counterexample shows the bound is needed: without it the assertion
fails, e.g. at nsamples = 40000.) -/
theorem c1_buffer_bound (channels : List Channel) (period : ℚ) (n : ℕ)
    (hp : 0 < period) (hn : 1 ≤ n)
    (hbound : n * nsamplesMultiplier channels ≤ 5993)
    (h2 : 2 ≤ captureTicks period n (nsamplesMultiplier channels))
    (h65536 : captureTicks period n (nsamplesMultiplier channels) < 65536) :
    ∃ p, capturePlan channels period n = .ok p ∧
      p.totalSamples ≤ p.regime.bufferWidth := by
  obtain ⟨r, hreg, htpos, hprod⟩ := captureRegime_c1 (dualChannel channels) h2 h65536
  have hm12 : nsamplesMultiplier channels = 1 ∨ nsamplesMultiplier channels = 2 := by
    unfold nsamplesMultiplier
    split_ifs <;> simp
  have hm1 : 1 ≤ nsamplesMultiplier channels := by rcases hm12 with h | h <;> omega
  have hccp : (0:ℚ) < capture_clock_period := by norm_num [capture_clock_period]
  have hnQ : (0:ℚ) < (n : ℚ) := by exact_mod_cast Nat.lt_of_lt_of_le Nat.zero_lt_one hn
  have hmQ : (0:ℚ) < (nsamplesMultiplier channels : ℚ) := by exact_mod_cast hm1
  have hm2Q : (nsamplesMultiplier channels : ℚ) ≤ 2 := by
    rcases hm12 with h | h <;> rw [h] <;> norm_num
  have hxpos : 0 < period / (n : ℚ) / (nsamplesMultiplier channels : ℚ) /
      capture_clock_period :=
    div_pos (div_pos (div_pos hp hnQ) hmQ) hccp
  have htfloor : captureTicks period n (nsamplesMultiplier channels) =
      ⌊period / (n : ℚ) / (nsamplesMultiplier channels : ℚ) / capture_clock_period⌋ :=
    pytrunc_eq_floor (le_of_lt hxpos)
  have hxlt : period / (n : ℚ) / (nsamplesMultiplier channels : ℚ) / capture_clock_period <
      (captureTicks period n (nsamplesMultiplier channels) : ℚ) + 1 := by
    rw [htfloor]
    exact_mod_cast Int.lt_floor_add_one
      (period / (n : ℚ) / (nsamplesMultiplier channels : ℚ) / capture_clock_period)
  have hteQ : (0:ℚ) < (r.ticks : ℚ) := by exact_mod_cast htpos
  have hne1 : (r.ticks : ℚ) ≠ 0 := ne_of_gt hteQ
  have hne2 : (n : ℚ) ≠ 0 := ne_of_gt hnQ
  have hne3 : (nsamplesMultiplier channels : ℚ) ≠ 0 := ne_of_gt hmQ
  have hne4 : capture_clock_period ≠ 0 := ne_of_gt hccp
  have hkey : period / (r.ticks : ℚ) / (nsamplesMultiplier channels : ℚ) /
      capture_clock_period * (r.ticks : ℚ) =
      period / (n : ℚ) / (nsamplesMultiplier channels : ℚ) / capture_clock_period * (n : ℚ) := by
    field_simp
    ring
  have hYt : period / (r.ticks : ℚ) / (nsamplesMultiplier channels : ℚ) /
      capture_clock_period * (r.ticks : ℚ) <
      ((captureTicks period n (nsamplesMultiplier channels) : ℚ) + 1) * (n : ℚ) := by
    rw [hkey]
    exact mul_lt_mul_of_pos_right hxlt hnQ
  have hnm : (n : ℚ) * (nsamplesMultiplier channels : ℚ) ≤ 5993 := by exact_mod_cast hbound
  have hprodQ : ((captureTicks period n (nsamplesMultiplier channels) : ℚ) + 1) * 5993 ≤
      ((r.bufferWidth : ℚ) - 1) * (r.ticks : ℚ) := by exact_mod_cast hprod
  have hmain : (roundHalfEven (period / (r.ticks : ℚ) / (nsamplesMultiplier channels : ℚ) /
      capture_clock_period) : ℚ) * (nsamplesMultiplier channels : ℚ) ≤ (r.bufferWidth : ℚ) := by
    have h1 : (roundHalfEven (period / (r.ticks : ℚ) / (nsamplesMultiplier channels : ℚ) /
        capture_clock_period) : ℚ) * (nsamplesMultiplier channels : ℚ) ≤
        (period / (r.ticks : ℚ) / (nsamplesMultiplier channels : ℚ) / capture_clock_period +
          1/2) * (nsamplesMultiplier channels : ℚ) :=
      mul_le_mul_of_nonneg_right (roundHalfEven_le _) (le_of_lt hmQ)
    have hstep : (period / (r.ticks : ℚ) / (nsamplesMultiplier channels : ℚ) /
        capture_clock_period + 1/2) * (nsamplesMultiplier channels : ℚ) * (r.ticks : ℚ) ≤
        (r.bufferWidth : ℚ) * (r.ticks : ℚ) := by
      have hA : period / (r.ticks : ℚ) / (nsamplesMultiplier channels : ℚ) /
          capture_clock_period * (r.ticks : ℚ) * (nsamplesMultiplier channels : ℚ) ≤
          ((captureTicks period n (nsamplesMultiplier channels) : ℚ) + 1) * (n : ℚ) *
            (nsamplesMultiplier channels : ℚ) :=
        mul_le_mul_of_nonneg_right (le_of_lt hYt) (le_of_lt hmQ)
      have hB : ((captureTicks period n (nsamplesMultiplier channels) : ℚ) + 1) *
          ((n : ℚ) * (nsamplesMultiplier channels : ℚ)) ≤
          ((captureTicks period n (nsamplesMultiplier channels) : ℚ) + 1) * 5993 := by
        apply mul_le_mul_of_nonneg_left hnm
        have h2c : (2:ℚ) ≤ (captureTicks period n (nsamplesMultiplier channels) : ℚ) := by
          exact_mod_cast h2
        linarith
      have hD : (nsamplesMultiplier channels : ℚ) * (r.ticks : ℚ) ≤ 2 * (r.ticks : ℚ) :=
        mul_le_mul_of_nonneg_right hm2Q (le_of_lt hteQ)
      nlinarith [hA, hB, hD, hprodQ]
    exact le_trans h1 (le_of_mul_le_mul_right hstep hteQ)
  have htot : roundHalfEven (period / (r.ticks : ℚ) / (nsamplesMultiplier channels : ℚ) /
      capture_clock_period) * (nsamplesMultiplier channels : ℤ) ≤ r.bufferWidth := by
    exact_mod_cast hmain
  refine ⟨⟨nsamplesMultiplier channels, r,
    roundHalfEven (period / (r.ticks : ℚ) / (nsamplesMultiplier channels : ℚ) /
      capture_clock_period),
    roundHalfEven (period / (r.ticks : ℚ) / (nsamplesMultiplier channels : ℚ) /
      capture_clock_period) * (nsamplesMultiplier channels : ℤ)⟩, ?_, ?_⟩
  · rw [capturePlan_eq_of hreg, if_pos htot]
  · exact htot

/-- C1 witness: a standard request (1000 samples over 1 ms, channel A) is
within the bound, the plan succeeds and respects the buffer width. -/
theorem c1_buffer_bound_witness :
    ∃ p, capturePlan [Channel.A] (1/1000) 1000 = .ok p ∧
      p.totalSamples ≤ p.regime.bufferWidth := by
  have ht : captureTicks (1/1000) 1000 (nsamplesMultiplier [Channel.A]) = 40 := by
    rw [show nsamplesMultiplier [Channel.A] = 1 from rfl]
    unfold captureTicks pytrunc
    norm_num [capture_clock_period]
  exact c1_buffer_bound [Channel.A] (1/1000) 1000 (by norm_num) (by norm_num)
    (by rw [show nsamplesMultiplier [Channel.A] = 1 from rfl]; norm_num)
    (by rw [ht]; norm_num) (by rw [ht]; norm_num)

/- Validation of the binary32 encoder on concrete values: an exactly
representable value survives the round trip unchanged, and 1/3 rounds to the
nearest 24-bit significand (ties-to-even never fires here). -/

theorem int_log_eq (r : ℚ) (e : ℤ) (hr : 0 < r) (h1 : (2:ℚ) ^ e ≤ r)
    (h2 : r < (2:ℚ) ^ (e + 1)) : Int.log 2 r = e := by
  have hle : e ≤ Int.log 2 r := (Int.zpow_le_iff_le_log one_lt_two hr).mp h1
  have hlt : Int.log 2 r < e + 1 := (Int.lt_zpow_iff_log_lt one_lt_two hr).mp h2
  omega

theorem encodeF32_eval (q : ℚ) (e : ℤ) (hq : 0 < q) (h1 : (2:ℚ) ^ e ≤ q)
    (h2 : q < (2:ℚ) ^ (e + 1)) (he : -126 ≤ e) :
    encodeF32 q = encodeF32Sig (roundHalfEven (q * (2:ℚ) ^ (23 - e))) e := by
  unfold encodeF32
  rw [if_neg (ne_of_gt hq), if_neg (not_lt.mpr (le_of_lt hq)), abs_of_pos hq,
    int_log_eq q e hq h1 h2, max_eq_left he]
  norm_num

theorem fl32_zero : fl32 0 = 0 := by
  unfold fl32 encodeF32 decodeF32
  norm_num

theorem fl32_half : fl32 (1/2) = 1/2 := by
  have h1 : encodeF32 (1/2) =
      encodeF32Sig (roundHalfEven ((1/2 : ℚ) * (2:ℚ) ^ ((23 : ℤ) - (-1)))) (-1) :=
    encodeF32_eval (1/2) (-1) (by norm_num) (by norm_num) (by norm_num) (by norm_num)
  have h2 : roundHalfEven ((1/2 : ℚ) * (2:ℚ) ^ ((23 : ℤ) - (-1))) = 8388608 := by
    unfold roundHalfEven
    norm_num
  have h3 : encodeF32Sig 8388608 (-1) = 1056964608 := by
    unfold encodeF32Sig
    norm_num
    omega
  unfold fl32
  rw [h1, h2, h3]
  unfold decodeF32
  norm_num

theorem fl32_third : fl32 (1/3) = 11184811/33554432 := by
  have h1 : encodeF32 (1/3) =
      encodeF32Sig (roundHalfEven ((1/3 : ℚ) * (2:ℚ) ^ ((23 : ℤ) - (-2)))) (-2) :=
    encodeF32_eval (1/3) (-2) (by norm_num) (by norm_num) (by norm_num) (by norm_num)
  have h2 : roundHalfEven ((1/3 : ℚ) * (2:ℚ) ^ ((23 : ℤ) - (-2))) = 11184811 := by
    unfold roundHalfEven
    norm_num
  have h3 : encodeF32Sig 11184811 (-2) = 1051372203 := by
    unfold encodeF32Sig
    norm_num
    omega
  unfold fl32
  rw [h1, h2, h3]
  unfold decodeF32
  norm_num
